import Mathlib

/-!
Verification of the gate_computer_compiler assemblers.

This file gives a shallow embedding of the two C assemblers of the
repository (the 16-bit one in lsasm.c, namespace Lsasm, and the 32-bit
one in the v2 source, namespace LsasmV2) and proves or refutes the
frozen claims about them.  Source lines are modelled as lists of
characters (the contents of one fgets buffer), machine words as Nat
with explicit masking, and the C functions are translated one to one.
-/

set_option maxRecDepth 10000

/-- Character class of the C isspace function (ASCII locale). -/
def isspaceC (c : Char) : Bool :=
  c == ' ' || c == '\t' || c == '\n' || c == Char.ofNat 11 || c == Char.ofNat 12 || c == '\r'

/-- Character class of the C isdigit function. -/
def isdigitC (c : Char) : Bool :=
  '0' ≤ c && c ≤ '9'

/-- Character class of the C isalpha function (ASCII locale). -/
def isalphaC (c : Char) : Bool :=
  ('a' ≤ c && c ≤ 'z') || ('A' ≤ c && c ≤ 'Z')

/-- ASCII upper-casing as done by the C toupper function. -/
def toupperC (c : Char) : Char :=
  if 'a' ≤ c && c ≤ 'z' then Char.ofNat (c.toNat - 32) else c

/-- Value of a run of decimal digits. -/
def decDigitsVal (ds : List Char) : Nat :=
  ds.foldl (fun a c => a * 10 + (c.toNat - 48)) 0

/-- Numeric value of one hexadecimal digit. -/
def hexDigitVal (c : Char) : Nat :=
  if isdigitC c then c.toNat - 48
  else if 'a' ≤ c && c ≤ 'f' then c.toNat - 87
  else c.toNat - 55

/-- Character class of hexadecimal digits as accepted by strtol base 16. -/
def ishexC (c : Char) : Bool :=
  isdigitC c || ('a' ≤ c && c ≤ 'f') || ('A' ≤ c && c ≤ 'F')

/-- Value of a run of hexadecimal digits. -/
def hexDigitsVal (ds : List Char) : Nat :=
  ds.foldl (fun a c => a * 16 + hexDigitVal c) 0

/-- Value of a run of binary digits. -/
def binDigitsVal (ds : List Char) : Nat :=
  ds.foldl (fun a c => a * 2 + (c.toNat - 48)) 0

/-- Character class of binary digits. -/
def isbinC (c : Char) : Bool :=
  c == '0' || c == '1'

/-- The C atoi function: skip whitespace, optional sign, then the
longest run of decimal digits (0 when there is none). -/
def atoi (s : List Char) : Int :=
  match s.dropWhile isspaceC with
  | '-' :: r => - ((decDigitsVal (r.takeWhile isdigitC) : Int))
  | '+' :: r => (decDigitsVal (r.takeWhile isdigitC) : Int)
  | r => (decDigitsVal (r.takeWhile isdigitC) : Int)

/-- The C strtol function with base 16: skip whitespace, optional sign,
optional 0x or 0X prefix, then the longest run of hex digits. -/
def strtol16 (s : List Char) : Int :=
  match s.dropWhile isspaceC with
  | '-' :: '0' :: x :: r =>
    if x == 'x' || x == 'X' then - ((hexDigitsVal (r.takeWhile ishexC) : Int))
    else - ((hexDigitsVal ((('0' :: x :: r).takeWhile ishexC)) : Int))
  | '-' :: r => - ((hexDigitsVal (r.takeWhile ishexC) : Int))
  | '0' :: x :: r =>
    if x == 'x' || x == 'X' then (hexDigitsVal (r.takeWhile ishexC) : Int)
    else (hexDigitsVal (('0' :: x :: r).takeWhile ishexC) : Int)
  | r => (hexDigitsVal (r.takeWhile ishexC) : Int)

/-- The C strtol function with base 2 (no prefix handling is exercised):
skip whitespace, optional sign, then the longest run of binary digits. -/
def strtol2 (s : List Char) : Int :=
  match s.dropWhile isspaceC with
  | '-' :: r => - ((binDigitsVal (r.takeWhile isbinC) : Int))
  | r => (binDigitsVal (r.takeWhile isbinC) : Int)

/-- Worker for cTokens, structurally recursive on a fuel argument that
bounds the number of characters still to be inspected. -/
def cTokensGo : Nat → List Char → List (List Char)
  | 0, _ => []
  | _, [] => []
  | fuel + 1, c :: cs =>
    if isspaceC c then cTokensGo fuel cs
    else (c :: cs.takeWhile (fun d => !isspaceC d)) :: cTokensGo fuel (cs.dropWhile (fun d => !isspaceC d))

/-- Whitespace-separated tokens of a C string, as consumed by repeated
sscanf percent-s conversions.  The fuel, one unit per character of the
string, is an upper bound on the scanning steps, so it never runs
out. -/
def cTokens (l : List Char) : List (List Char) :=
  cTokensGo l.length l

namespace Lsasm

/-- Maximum number of entries of the 16-bit assembler's label table. -/
def MAX_LABELS : Nat := 128

/-- Maximum number of instructions (shared by both assemblers). -/
def MAX_INSTR : Nat := 256

/-- Label table of lsasm.c: a growable list of (name, address) pairs;
the C count field is the list length. -/
abbrev SymbolTable := List (List Char × Nat)

/-- Function symbol_table_add of lsasm.c, with the table capacity as a
parameter (128 in lsasm.c, 256 in the v2 assembler).  The name field is
a 32-byte buffer filled by strncpy with limit 31, the address field is
a uint8_t. -/
def symbol_table_add (maxLabels : Nat) (table : SymbolTable) (name : List Char) (address : Nat) :
    SymbolTable :=
  if maxLabels ≤ List.length table then table
  else table ++ [(name.take 31, address % 256)]

/-- Function symbol_table_lookup of lsasm.c: first match wins, -1 when
the name is absent. -/
def symbol_table_lookup : SymbolTable → List Char → Int
  | [], _ => -1
  | (n, a) :: rest, name => if n = name then (a : Int) else symbol_table_lookup rest name

/-- Function is_label of lsasm.c: after skipping leading whitespace the
line must contain a colon, the text before the first colon must be 1 to
31 characters long and start with a letter or underscore. -/
def is_label (line : List Char) : Bool :=
  match line.dropWhile isspaceC with
  | [] => false
  | c :: rest =>
    let lp := c :: rest
    let pre := lp.takeWhile (fun d => d != ':')
    if pre.length = lp.length then false
    else if pre.length = 0 || 32 ≤ pre.length then false
    else isalphaC c || c == '_'

/-- Function parse_label of lsasm.c: the text before the first colon,
capped at 31 characters. -/
def parse_label (line : List Char) : List Char :=
  ((line.dropWhile isspaceC).takeWhile (fun d => d != ':')).take 31

/-- Function parse_register of lsasm.c.  The return type is uint8_t, so
the -1 failure value is the byte 255. -/
def parse_register (s : List Char) : Nat :=
  match s with
  | [] => 255
  | c :: r =>
    if c != 'X' && c != 'x' then 255
    else
      let reg := atoi r
      if reg < 0 || 7 < reg then 255 else reg.toNat

/-- Function parse_constant of lsasm.c (hex, binary or decimal, range 0
to 255).  The return type is uint8_t, so the -1 failure value is the
byte 255. -/
def parse_constant (s : List Char) : Nat :=
  let value : Int :=
    match s with
    | '0' :: c1 :: _ =>
      if c1 == 'x' || c1 == 'X' then strtol16 s
      else if c1 == 'b' || c1 == 'B' then strtol2 (s.drop 2)
      else atoi s
    | _ => atoi s
  if value < 0 || 255 < value then 255 else value.toNat

/-- Function strip_comments (identical in both assemblers): remove
C-style line and block comments from one line, threading the
inside-block-comment flag. -/
def strip_comments : List Char → Bool → List Char × Bool
  | [], m => ([], m)
  | [c], m => if m then ([], m) else ([c], m)
  | c1 :: c2 :: rest, m =>
    if m then
      if c1 == '*' && c2 == '/' then strip_comments rest false
      else strip_comments (c2 :: rest) true
    else
      if c1 == '/' && c2 == '*' then strip_comments rest true
      else if c1 == '/' && c2 == '/' then ([], false)
      else
        let r := strip_comments (c2 :: rest) false
        (c1 :: r.1, r.2)

/-- Function encode_alu of lsasm.c (16-bit word). -/
def encode_alu (op dst src1 src2 altBit : Nat) : Nat :=
  let i0 := op &&& 0xF
  let i1 := if altBit ≠ 0 then i0 ||| 0x0080 else i0
  let i2 := i1 ||| ((dst &&& 0x7) <<< 4)
  if altBit = 0 then
    (i2 ||| ((src1 &&& 0x7) <<< 8)) ||| ((src2 &&& 0x7) <<< 12)
  else
    i2 ||| ((src1 &&& 0xFF) <<< 8)

/-- Function encode_move of lsasm.c (opcode 8). -/
def encode_move (dst src altBit : Nat) : Nat :=
  let i0 := (8 : Nat)
  let i1 := i0 ||| ((dst &&& 0x7) <<< 4)
  let i2 := if altBit ≠ 0 then i1 ||| 0x0080 else i1
  if altBit = 0 then i2 ||| ((src &&& 0x7) <<< 8)
  else i2 ||| ((src &&& 0xFF) <<< 8)

/-- Function encode_memory of lsasm.c (opcode 9). -/
def encode_memory (dst addr altBit : Nat) : Nat :=
  let i0 := (9 : Nat)
  let i1 := i0 ||| ((dst &&& 0x7) <<< 4)
  let i2 := if altBit ≠ 0 then i1 ||| 0x0080 else i1
  i2 ||| ((addr &&& 0xFF) <<< 8)

/-- Function encode_cmp of lsasm.c (opcode 11). -/
def encode_cmp (src1 src2 altBit : Nat) : Nat :=
  let i0 := (11 : Nat)
  let i1 := i0 ||| ((src1 &&& 0x7) <<< 4)
  let i2 := if altBit ≠ 0 then i1 ||| 0x0080 else i1
  if altBit = 0 then i2 ||| ((src2 &&& 0x7) <<< 8)
  else i2 ||| ((src2 &&& 0xFF) <<< 8)

/-- Function encode_memi of lsasm.c (opcode 12). -/
def encode_memi (dataReg addrReg altBit : Nat) : Nat :=
  let i0 := (12 : Nat)
  let i1 := i0 ||| ((dataReg &&& 0x7) <<< 4)
  let i2 := if altBit ≠ 0 then i1 ||| 0x0080 else i1
  i2 ||| ((addrReg &&& 0x7) <<< 8)

/-- Function encode_b of lsasm.c (opcode 10). -/
def encode_b (condition target : Nat) : Nat :=
  ((10 : Nat) ||| ((condition &&& 0xF) <<< 4)) ||| ((target &&& 0xFF) <<< 8)

/-- Test whether a C string starts with an X register prefix, as the
checks of the form str0 equals X or x in lsasm.c do. -/
def headIsX (s : List Char) : Bool :=
  match s with
  | [] => false
  | c :: _ => c == 'X' || c == 'x'

/-- Test whether a C string starts with a decimal digit, as the branch
target dispatch of lsasm.c does. -/
def headIsDigit (s : List Char) : Bool :=
  match s with
  | [] => false
  | c :: _ => '0' ≤ c && c ≤ '9'

/-- Function parse_alu_instruction of lsasm.c.  Returns the encoded
word together with the error flag.  Note that the three-operand form
parses all three operands as registers with no failure check, and the
register comparisons against -1 elsewhere in the file are on a uint8_t
and can never be true. -/
def parse_alu_instruction (op : Nat) (operands : List Char) : Nat × Bool :=
  match cTokens operands with
  | t0 :: t1 :: t2 :: _ =>
    (encode_alu op (parse_register t0) (parse_register t1) (parse_register t2) 0, false)
  | [t0, t1] =>
    let dst := parse_register t0
    if headIsX t1 then (encode_alu op dst dst (parse_register t1) 0, false)
    else (encode_alu op dst (parse_constant t1) 0 1, false)
  | _ => (0, true)

/-- Branch condition selected from the upper-cased mnemonic by the
if-else chain of parse_instruction in lsasm.c. -/
def branch_condition_of (mnemonic : List Char) : Option Nat :=
  if mnemonic = ('B' :: []) then some 0
  else if mnemonic = "BEQ".toList then some 1
  else if mnemonic = "BNE".toList then some 2
  else if mnemonic = "BLT".toList then some 3
  else if mnemonic = "BLE".toList then some 4
  else if mnemonic = "BGT".toList then some 5
  else if mnemonic = "BGE".toList then some 6
  else if mnemonic = "BCS".toList then some 7
  else if mnemonic = "BCC".toList then some 8
  else if mnemonic = "BMI".toList then some 9
  else if mnemonic = "BPL".toList then some 10
  else if mnemonic = "BVS".toList then some 11
  else if mnemonic = "BVC".toList then some 12
  else if mnemonic = "BHI".toList then some 13
  else if mnemonic = "BLS".toList then some 14
  else none

/-- Function parse_instruction of lsasm.c: parse and encode one source
line against the symbol table, returning the word and the error flag.
The uint8_t comparisons against -1 of the C source are kept as integer
comparisons of a byte value with -1 (they are always false, exactly as
in C).  EXIT returns the word 15 with no error. -/
def parse_instruction (line : List Char) (symTable : SymbolTable) : Nat × Bool :=
  match line.dropWhile isspaceC with
  | [] => (0, false)
  | c :: rest =>
    let lp := c :: rest
    if c == ';' || c == '#' then (0, false)
    else if is_label lp then (0, false)
    else
      let mnemonic := (lp.takeWhile (fun d => !isspaceC d)).map toupperC
      let operands := (lp.dropWhile (fun d => !isspaceC d)).dropWhile isspaceC
      if mnemonic = "EXIT".toList then (15, false)
      else if mnemonic = "AND".toList then parse_alu_instruction 0 operands
      else if mnemonic = "OR".toList then parse_alu_instruction 1 operands
      else if mnemonic = "XOR".toList then parse_alu_instruction 2 operands
      else if mnemonic = "NOT".toList then
        match cTokens operands with
        | t0 :: _ => (encode_alu 3 (parse_register t0) 0 0 0, false)
        | [] => (0, true)
      else if mnemonic = "ADD".toList then parse_alu_instruction 4 operands
      else if mnemonic = "SUB".toList then parse_alu_instruction 5 operands
      else if mnemonic = "LSL".toList then parse_alu_instruction 6 operands
      else if mnemonic = "LSR".toList then parse_alu_instruction 7 operands
      else if mnemonic = "CMP".toList then
        match cTokens operands with
        | t0 :: t1 :: _ =>
          let src1 := parse_register t0
          if (src1 : Int) = -1 then (0, true)
          else if headIsX t1 then
            let src2 := parse_register t1
            if (src2 : Int) = -1 then (0, true) else (encode_cmp src1 src2 0, false)
          else
            let src2 := parse_constant t1
            if (src2 : Int) = -1 then (0, true) else (encode_cmp src1 src2 1, false)
        | _ => (0, true)
      else if mnemonic = "MOV".toList then
        match cTokens operands with
        | t0 :: t1 :: _ =>
          let dst := parse_register t0
          if headIsX t1 then (encode_move dst (parse_register t1) 0, false)
          else (encode_move dst (parse_constant t1) 1, false)
        | _ => (0, true)
      else if mnemonic = "READ".toList then
        match cTokens operands with
        | t0 :: t1 :: _ =>
          let dst := parse_register t0
          if (dst : Int) = -1 then (0, true)
          else if headIsX t1 then
            let addr := parse_register t1
            if (addr : Int) = -1 then (0, true) else (encode_memi dst addr 0, false)
          else
            let addr := parse_constant t1
            if (addr : Int) = -1 then (0, true) else (encode_memory dst addr 0, false)
        | _ => (0, true)
      else if mnemonic = "WRITE".toList then
        match cTokens operands with
        | t0 :: t1 :: _ =>
          let src := parse_register t0
          if (src : Int) = -1 then (0, true)
          else if headIsX t1 then
            let addr := parse_register t1
            if (addr : Int) = -1 then (0, true) else (encode_memi src addr 1, false)
          else
            let addr := parse_constant t1
            if (addr : Int) = -1 then (0, true) else (encode_memory src addr 1, false)
        | _ => (0, true)
      else if mnemonic.head? = some 'B' then
        match cTokens operands with
        | t0 :: _ =>
          match branch_condition_of mnemonic with
          | none => (0, true)
          | some condition =>
            let addr : Int :=
              if headIsDigit t0 then atoi t0 else symbol_table_lookup symTable t0
            if addr < 0 || 255 < addr then (0, true)
            else (encode_b condition addr.toNat, false)
        | [] => (0, true)
      else (0, true)

/-- Pass 1 of the main function of lsasm.c: scan every line, strip
comments, record labels at the current program counter and advance the
counter on every other non-blank line, stopping once the counter
reaches MAX_INSTR. -/
def pass1 : List (List Char) → Bool → Nat → SymbolTable → Nat × SymbolTable
  | [], _, pc, tbl => (pc, tbl)
  | l :: ls, m, pc, tbl =>
    if MAX_INSTR ≤ pc then (pc, tbl)
    else
      let r := strip_comments l m
      match r.1.dropWhile isspaceC with
      | [] => pass1 ls r.2 pc tbl
      | c :: rest =>
        if is_label (c :: rest) then
          pass1 ls r.2 pc (symbol_table_add MAX_LABELS tbl (parse_label (c :: rest)) pc)
        else pass1 ls r.2 (pc + 1) tbl

/-- Pass 2 of the main function of lsasm.c: strip comments again with a
fresh block-comment state, parse every line, skip lines whose parse
failed, and append the encoded word of every non-blank non-label line,
stopping once MAX_INSTR words have been collected. -/
def pass2 : List (List Char) → Bool → SymbolTable → List Nat → List Nat
  | [], _, _, acc => acc
  | l :: ls, m, tbl, acc =>
    if MAX_INSTR ≤ acc.length then acc
    else
      let r := strip_comments l m
      let pe := parse_instruction r.1 tbl
      if pe.2 then pass2 ls r.2 tbl acc
      else
        match r.1.dropWhile isspaceC with
        | [] => pass2 ls r.2 tbl acc
        | c :: rest =>
          if is_label (c :: rest) then pass2 ls r.2 tbl acc
          else pass2 ls r.2 tbl (acc ++ [pe.1])

/-- Pass 1 as invoked by main: initial block-comment state false,
program counter 0, empty label table. -/
def lsasm_pass1 (lines : List (List Char)) : Nat × SymbolTable :=
  pass1 lines false 0 []

/-- Pass 2 as invoked by main: initial block-comment state false, the
label table produced by pass 1, empty word list. -/
def lsasm_pass2 (lines : List (List Char)) : List Nat :=
  pass2 lines false (lsasm_pass1 lines).2 []

/-- Predicate used as a hypothesis: every line of the source parses in
pass 2 without a per-line failure (with the comment state threaded
exactly as pass 2 does). -/
def noErrors : List (List Char) → Bool → SymbolTable → Bool
  | [], _, _ => true
  | l :: ls, m, tbl =>
    let r := strip_comments l m
    !(parse_instruction r.1 tbl).2 && noErrors ls r.2 tbl

end Lsasm

namespace LsasmV2

/-- Maximum number of entries of the 32-bit assembler's label table. -/
def MAX_LABELS : Nat := 256

/-- Function parse_constant of the v2 assembler: an ASCII character
literal, hex, binary or decimal, range 0 to 65535.  The return type is
uint16_t, so the -1 failure value is 65535. -/
def parse_constant (s : List Char) : Nat :=
  match s with
  | ['\'', c, '\''] => c.toNat % 256
  | _ =>
    let value : Int :=
      match s with
      | '0' :: c1 :: _ =>
        if c1 == 'x' || c1 == 'X' then strtol16 s
        else if c1 == 'b' || c1 == 'B' then strtol2 (s.drop 2)
        else atoi s
      | _ => atoi s
    if value < 0 || 65535 < value then 65535 else value.toNat

/-- Function encode_alu of the v2 assembler (32-bit word): the
immediate form sets bit 4 of the opcode byte. -/
def encode_alu (op dst src1 src2 altBit : Nat) : Nat :=
  let actual_opcode := (if altBit ≠ 0 then op ||| 0x10 else op) % 256
  let i1 := actual_opcode ||| ((dst &&& 0x7) <<< 8)
  if altBit = 0 then
    (i1 ||| ((src1 &&& 0x7) <<< 12)) ||| ((src2 &&& 0x7) <<< 16)
  else
    (i1 ||| ((src1 &&& 0x7) <<< 12)) ||| ((src2 &&& 0xFFFF) <<< 16)

/-- Function encode_move of the v2 assembler (opcodes 0x20 and 0x21). -/
def encode_move (dst src_or_imm altBit : Nat) : Nat :=
  let i0 : Nat := if altBit ≠ 0 then 0x21 else 0x20
  let i1 := i0 ||| ((dst &&& 0x7) <<< 8)
  if altBit = 0 then i1 ||| ((src_or_imm &&& 0x7) <<< 12)
  else i1 ||| ((src_or_imm &&& 0xFFFF) <<< 16)

/-- Function encode_cmp of the v2 assembler (opcodes 0x22 and 0x23). -/
def encode_cmp (src1 src2 altBit : Nat) : Nat :=
  let actual_opcode : Nat := if altBit ≠ 0 then 0x23 else 0x22
  if altBit = 0 then
    (actual_opcode ||| ((src1 &&& 0x7) <<< 12)) ||| ((src2 &&& 0x7) <<< 16)
  else
    (actual_opcode ||| ((src1 &&& 0x7) <<< 12)) ||| ((src2 &&& 0xFFFF) <<< 16)

/-- Function encode_branch of the v2 assembler (opcodes 0x24 and
0x25). -/
def encode_branch (condition target is_immediate : Nat) : Nat :=
  if is_immediate ≠ 0 then
    ((0x25 : Nat) ||| ((condition &&& 0xF) <<< 8)) ||| ((target &&& 0xFFFF) <<< 16)
  else
    ((0x24 : Nat) ||| ((condition &&& 0xF) <<< 8)) ||| ((target &&& 0x7) <<< 16)

/-- Function encode_read of the v2 assembler (opcode 0x26). -/
def encode_read (dst addr_reg : Nat) : Nat :=
  ((0x26 : Nat) ||| ((dst &&& 0x7) <<< 8)) ||| ((addr_reg &&& 0x7) <<< 16)

/-- Function encode_read_i of the v2 assembler (opcode 0x27). -/
def encode_read_i (dst addr_imm : Nat) : Nat :=
  ((0x27 : Nat) ||| ((dst &&& 0x7) <<< 8)) ||| ((addr_imm &&& 0xF) <<< 16)

/-- Function encode_write of the v2 assembler (opcode 0x28). -/
def encode_write (data_reg addr_reg : Nat) : Nat :=
  ((0x28 : Nat) ||| ((data_reg &&& 0x7) <<< 12)) ||| ((addr_reg &&& 0x7) <<< 16)

/-- Function encode_write_i of the v2 assembler (opcode 0x29). -/
def encode_write_i (data_reg addr_imm : Nat) : Nat :=
  ((0x29 : Nat) ||| ((data_reg &&& 0x7) <<< 12)) ||| ((addr_imm &&& 0xF) <<< 16)

/-- Function encode_print_reg of the v2 assembler (opcode 0x2A). -/
def encode_print_reg (data_reg pos_reg : Nat) : Nat :=
  ((0x2A : Nat) ||| ((data_reg &&& 0x7) <<< 12)) ||| ((pos_reg &&& 0x7) <<< 16)

/-- Function encode_print_reg_i of the v2 assembler (opcode 0x2B). -/
def encode_print_reg_i (data_reg pos_imm : Nat) : Nat :=
  ((0x2B : Nat) ||| ((data_reg &&& 0x7) <<< 12)) ||| ((pos_imm &&& 0xFF) <<< 24)

/-- Function encode_print_const of the v2 assembler (opcode 0x2C). -/
def encode_print_const (data_const pos_reg : Nat) : Nat :=
  ((0x2C : Nat) ||| ((data_const &&& 0x7) <<< 12)) ||| ((pos_reg &&& 0x7) <<< 16)

/-- Function encode_print_const_i of the v2 assembler (opcode 0x2D). -/
def encode_print_const_i (data_const pos_imm : Nat) : Nat :=
  ((0x2D : Nat) ||| ((data_const &&& 0xFF) <<< 16)) ||| ((pos_imm &&& 0xFF) <<< 24)

/-- Pointwise array store, used to model writes into the alpha and
beta ROM arrays of the v2 main function. -/
def storeAt (f : Nat → Nat) (i v : Nat) : Nat → Nat :=
  fun j => if j = i then v else f j

/-- The ROM-splitting loop of the v2 main function: for every encoded
instruction, the upper 16 bits go into the alpha array at the
instruction's address and the lower 16 bits into the beta array. -/
def write_banks : List Nat → Nat → (Nat → Nat) → (Nat → Nat) → (Nat → Nat) × (Nat → Nat)
  | [], _, alpha, beta => (alpha, beta)
  | w :: ws, i, alpha, beta =>
    write_banks ws (i + 1)
      (storeAt alpha i ((w >>> 16) &&& 0xFFFF))
      (storeAt beta i (w &&& 0xFFFF))

/-- The alpha and beta ROM images of the v2 main function: both arrays
start zero-filled and the splitting loop runs from address 0. -/
def split_banks (instructions : List Nat) : (Nat → Nat) × (Nat → Nat) :=
  write_banks instructions 0 (fun _ => 0) (fun _ => 0)

end LsasmV2

/-- The fifteen branch mnemonics recognised by the if-else chain of
parse_instruction in lsasm.c. -/
def branchMnemonics : List (List Char) :=
  [['B'], ['B', 'E', 'Q'], ['B', 'N', 'E'], ['B', 'L', 'T'], ['B', 'L', 'E'],
   ['B', 'G', 'T'], ['B', 'G', 'E'], ['B', 'C', 'S'], ['B', 'C', 'C'], ['B', 'M', 'I'],
   ['B', 'P', 'L'], ['B', 'V', 'S'], ['B', 'V', 'C'], ['B', 'H', 'I'], ['B', 'L', 'S']]

/-- Strings that contain no two-character comment opener (neither a
double slash nor a slash-star pair).  Outputs of strip_comments have
this shape, and on such strings a second strip is the identity. -/
def noCommentStart : List Char → Bool
  | c1 :: c2 :: rest => !(c1 == '/' && (c2 == '/' || c2 == '*')) && noCommentStart (c2 :: rest)
  | _ => true

/-! General lemmas about the embedded definitions. -/

theorem takeWhile_all_of {p : Char → Bool} :
    ∀ {l : List Char}, (∀ c ∈ l, p c = true) → l.takeWhile p = l := by
  intro l h
  induction l with
  | nil => rfl
  | cons c cs ih =>
    simp [List.takeWhile_cons, h c (List.mem_cons_self c cs),
      ih (fun d hd => h d (List.mem_cons_of_mem c hd))]

theorem dropWhile_all_of {p : Char → Bool} :
    ∀ {l : List Char}, (∀ c ∈ l, p c = true) → l.dropWhile p = [] := by
  intro l h
  induction l with
  | nil => rfl
  | cons c cs ih =>
    simp [List.dropWhile_cons, h c (List.mem_cons_self c cs),
      ih (fun d hd => h d (List.mem_cons_of_mem c hd))]

theorem cTokensGo_nil (fuel : Nat) : cTokensGo fuel [] = [] := by
  cases fuel <;> rfl

theorem cTokens_single (t : List Char) (h0 : t ≠ []) (hsp : ∀ c ∈ t, isspaceC c = false) :
    cTokens t = [t] := by
  cases t with
  | nil => exact absurd rfl h0
  | cons c cs =>
    have h1 : cs.takeWhile (fun d => !isspaceC d) = cs :=
      takeWhile_all_of (fun d hd => by rw [hsp d (List.mem_cons_of_mem c hd)]; rfl)
    have h2 : cs.dropWhile (fun d => !isspaceC d) = [] :=
      dropWhile_all_of (fun d hd => by rw [hsp d (List.mem_cons_of_mem c hd)]; rfl)
    show cTokensGo (c :: cs).length (c :: cs) = [c :: cs]
    simp only [List.length_cons]
    unfold cTokensGo
    rw [hsp c (List.mem_cons_self c cs), h1, h2, cTokensGo_nil]
    simp

theorem is_label_false_of_no_colon (l : List Char) (h : (':' : Char) ∉ l) :
    Lsasm.is_label l = false := by
  unfold Lsasm.is_label
  have hsub : ∀ c ∈ l.dropWhile isspaceC, c ≠ ':' := by
    intro c hc hcc
    exact h ((List.dropWhile_sublist isspaceC).mem (hcc ▸ hc))
  cases hd : l.dropWhile isspaceC with
  | nil => rfl
  | cons c rest =>
    have hall : (c :: rest).takeWhile (fun d => d != ':') = c :: rest := by
      apply takeWhile_all_of
      intro d hdm
      have := hsub d (hd ▸ hdm)
      simp [this]
    simp only [hall]
    simp

theorem isdigit_not_space (c : Char) (h : isdigitC c = true) : isspaceC c = false := by
  cases hs : isspaceC c with
  | false => rfl
  | true =>
    exfalso
    simp only [isspaceC, Bool.or_eq_true, beq_iff_eq] at hs
    rcases hs with ((((rfl | rfl) | rfl) | rfl) | rfl) | rfl <;> simp [isdigitC] at h

theorem parse_branch_line (mn t0 : List Char) (tbl : Lsasm.SymbolTable) (cond : Nat)
    (hmn : mn ∈ branchMnemonics)
    (hcond : Lsasm.branch_condition_of mn = some cond)
    (h0 : t0 ≠ []) (hsp : ∀ c ∈ t0, isspaceC c = false) (hcol : (':' : Char) ∉ t0) :
    Lsasm.parse_instruction (mn ++ ' ' :: t0) tbl =
      (if (if Lsasm.headIsDigit t0 then atoi t0 else Lsasm.symbol_table_lookup tbl t0) < 0 ||
          255 < (if Lsasm.headIsDigit t0 then atoi t0 else Lsasm.symbol_table_lookup tbl t0)
       then (0, true)
       else (Lsasm.encode_b cond
              (if Lsasm.headIsDigit t0 then atoi t0 else Lsasm.symbol_table_lookup tbl t0).toNat,
             false)) := by
  have hdt : List.dropWhile isspaceC t0 = t0 := by
    cases t0 with
    | nil => rfl
    | cons c cs => rw [List.dropWhile_cons, hsp c (List.mem_cons_self c cs)]; rfl
  have htok : cTokens t0 = [t0] := cTokens_single t0 h0 hsp
  simp only [branchMnemonics, List.mem_cons, List.not_mem_nil, or_false] at hmn
  have hmncol : (':' : Char) ∉ mn := by
    rcases hmn with rfl | rfl | rfl | rfl | rfl | rfl | rfl | rfl | rfl | rfl | rfl | rfl | rfl | rfl | rfl <;>
      decide
  have hlab : Lsasm.is_label (mn ++ ' ' :: t0) = false := by
    apply is_label_false_of_no_colon
    simp only [List.mem_append, List.mem_cons, not_or]
    exact ⟨hmncol, by decide, hcol⟩
  rcases hmn with rfl | rfl | rfl | rfl | rfl | rfl | rfl | rfl | rfl | rfl | rfl | rfl | rfl | rfl | rfl <;>
    simp only [List.cons_append, List.nil_append] at hlab ⊢ <;>
    simp [Lsasm.branch_condition_of] at hcond <;>
    subst hcond <;>
    simp [Lsasm.parse_instruction, isspaceC, toupperC, Lsasm.branch_condition_of,
      hlab, hdt, htok, List.dropWhile_cons, List.takeWhile_cons]

theorem lor_mod_two_pow (a b n : Nat) : (a ||| b) % 2 ^ n = a % 2 ^ n ||| b % 2 ^ n := by
  apply Nat.eq_of_testBit_eq
  intro i
  simp only [Nat.testBit_mod_two_pow, Nat.testBit_or]
  by_cases h : i < n <;> simp [h]

theorem shl_mod_256 (x k : Nat) (h : 8 ≤ k) : (x <<< k) % 256 = 0 := by
  rw [Nat.shiftLeft_eq]
  have h2 : (2 : Nat) ^ k = 2 ^ (k - 8) * 256 := by
    have h8 : (256 : Nat) = 2 ^ 8 := rfl
    rw [h8, ← pow_add]
    congr 1
    omega
  rw [h2, ← Nat.mul_assoc]
  exact Nat.mul_mod_left _ _

theorem low_byte_lor (a x k : Nat) (hk : 8 ≤ k) : (a ||| x <<< k) % 256 = a % 256 := by
  have h1 : (a ||| x <<< k) % 2 ^ 8 = a % 2 ^ 8 ||| (x <<< k) % 2 ^ 8 := lor_mod_two_pow a _ 8
  have h2 : (x <<< k) % 256 = 0 := shl_mod_256 x k hk
  have h3 : (a ||| x <<< k) % 256 = a % 256 ||| (x <<< k) % 256 := h1
  rw [h3, h2, Nat.or_zero]

/-! Claim theorems. -/

/-- C1: the claim states that MOV X0, 70000 must fail its line (a
per-line failure, no word emitted).  The code does the opposite: in
lsasm.c parse_constant returns the uint8_t value 255 (the truncated -1
sentinel) for 70000, the MOV handler performs no failure check, and the
line is encoded as the word 0xFF88 (MOV X0, 255) with the error flag
clear, so the word is appended to the output.  The v2 parse_constant
likewise returns the in-range uint16_t value 0xFFFF instead of
signalling failure. -/
theorem C1_mov_imm_overflow_silently_encoded :
    Lsasm.parse_instruction ("MOV X0, 70000".toList) [] = (0xFF88, false) ∧
    Lsasm.parse_constant ("70000".toList) = 255 ∧
    LsasmV2.parse_constant ("70000".toList) = 0xFFFF ∧
    Lsasm.lsasm_pass2 ["MOV X0, 70000".toList] = [0xFF88] := by
  decide

/-- C2: the claim states that a register operand outside X0-X7 (for
example ADD X9, X1, X2) is a hard per-line failure with a diagnostic
and no output word.  In lsasm.c parse_register returns the uint8_t
value 255 for X9, parse_alu_instruction performs no failure check, and
the line is encoded as the word 0x2174 (ADD X7, X1, X2, the register
masked to 3 bits) with the error flag clear, so a word is emitted. -/
theorem C2_register_out_of_range_silently_encoded :
    Lsasm.parse_register ("X9".toList) = 255 ∧
    Lsasm.parse_instruction ("ADD X9, X1, X2".toList) [] = (0x2174, false) ∧
    Lsasm.lsasm_pass2 ["ADD X9, X1, X2".toList] = [0x2174] := by
  decide

/-- C3 counterexample: the encoded word of MOV X0, 5 (immediate) in the
32-bit assembler is 0x00050021; its top byte is 0, not the opcode 0x21,
so the claimed invariant that the top byte is always the opcode is
false.  The opcode in fact sits in the lowest-order byte. -/
theorem C3_counterexample_top_byte_not_opcode :
    LsasmV2.encode_move 0 5 1 = 0x00050021 ∧
    ¬ (LsasmV2.encode_move 0 5 1 >>> 24 = 0x21) ∧
    LsasmV2.encode_move 0 5 1 % 256 = 0x21 := by
  decide

/-- C3 amended: in the 32-bit assembler every word produced by an
encode function carries its opcode in the lowest-order byte (bits 0-7),
for all operand values. -/
theorem C3_amended_low_byte_is_opcode :
    (∀ op dst src1 src2 altBit, LsasmV2.encode_alu op dst src1 src2 altBit % 256 =
      (if altBit ≠ 0 then op ||| 0x10 else op) % 256) ∧
    (∀ dst s a, LsasmV2.encode_move dst s a % 256 = if a ≠ 0 then 0x21 else 0x20) ∧
    (∀ s1 s2 a, LsasmV2.encode_cmp s1 s2 a % 256 = if a ≠ 0 then 0x23 else 0x22) ∧
    (∀ c t i, LsasmV2.encode_branch c t i % 256 = if i ≠ 0 then 0x25 else 0x24) ∧
    (∀ d a, LsasmV2.encode_read d a % 256 = 0x26) ∧
    (∀ d a, LsasmV2.encode_read_i d a % 256 = 0x27) ∧
    (∀ d a, LsasmV2.encode_write d a % 256 = 0x28) ∧
    (∀ d a, LsasmV2.encode_write_i d a % 256 = 0x29) ∧
    (∀ d p, LsasmV2.encode_print_reg d p % 256 = 0x2A) ∧
    (∀ d p, LsasmV2.encode_print_reg_i d p % 256 = 0x2B) ∧
    (∀ d p, LsasmV2.encode_print_const d p % 256 = 0x2C) ∧
    (∀ d p, LsasmV2.encode_print_const_i d p % 256 = 0x2D) := by
  refine ⟨?_, ?_, ?_, ?_, ?_, ?_, ?_, ?_, ?_, ?_, ?_, ?_⟩
  · intro op dst src1 src2 altBit
    unfold LsasmV2.encode_alu
    by_cases h : altBit = 0 <;>
      simp only [h, if_pos, if_neg, ne_eq, not_true_eq_false, not_false_eq_true, if_true,
        if_false, ite_true, ite_false, reduceIte] <;>
      rw [low_byte_lor _ _ 16 (by omega), low_byte_lor _ _ 12 (by omega),
        low_byte_lor _ _ 8 (by omega)] <;>
      omega
  · intro dst s a
    unfold LsasmV2.encode_move
    by_cases h : a = 0
    · simp only [h, ne_eq, not_true_eq_false, ite_true, ite_false, reduceIte]
      rw [low_byte_lor _ _ 12 (by omega), low_byte_lor _ _ 8 (by omega)]
    · simp only [h, ne_eq, not_false_eq_true, ite_true, ite_false, reduceIte]
      rw [low_byte_lor _ _ 16 (by omega), low_byte_lor _ _ 8 (by omega)]
  · intro s1 s2 a
    unfold LsasmV2.encode_cmp
    by_cases h : a = 0 <;>
      simp only [h, ne_eq, not_true_eq_false, not_false_eq_true, ite_true, ite_false, reduceIte] <;>
      rw [low_byte_lor _ _ 16 (by omega), low_byte_lor _ _ 12 (by omega)]
  · intro c t i
    unfold LsasmV2.encode_branch
    by_cases h : i = 0 <;>
      simp only [h, ne_eq, not_true_eq_false, not_false_eq_true, ite_true, ite_false, reduceIte] <;>
      rw [low_byte_lor _ _ 16 (by omega), low_byte_lor _ _ 8 (by omega)]
  · intro d a
    unfold LsasmV2.encode_read
    rw [low_byte_lor _ _ 16 (by omega), low_byte_lor _ _ 8 (by omega)]
  · intro d a
    unfold LsasmV2.encode_read_i
    rw [low_byte_lor _ _ 16 (by omega), low_byte_lor _ _ 8 (by omega)]
  · intro d a
    unfold LsasmV2.encode_write
    rw [low_byte_lor _ _ 16 (by omega), low_byte_lor _ _ 12 (by omega)]
  · intro d a
    unfold LsasmV2.encode_write_i
    rw [low_byte_lor _ _ 16 (by omega), low_byte_lor _ _ 12 (by omega)]
  · intro d p
    unfold LsasmV2.encode_print_reg
    rw [low_byte_lor _ _ 16 (by omega), low_byte_lor _ _ 12 (by omega)]
  · intro d p
    unfold LsasmV2.encode_print_reg_i
    rw [low_byte_lor _ _ 24 (by omega), low_byte_lor _ _ 12 (by omega)]
  · intro d p
    unfold LsasmV2.encode_print_const
    rw [low_byte_lor _ _ 16 (by omega), low_byte_lor _ _ 12 (by omega)]
  · intro d p
    unfold LsasmV2.encode_print_const_i
    rw [low_byte_lor _ _ 24 (by omega), low_byte_lor _ _ 16 (by omega)]

theorem noCommentStart_cons (c : Char) (l : List Char) (hc : (c == '/') = false)
    (hl : noCommentStart l = true) : noCommentStart (c :: l) = true := by
  cases l with
  | nil => rfl
  | cons d ds => simp [noCommentStart, hc, hl]

theorem head_strip (c : Char) (t : List Char) (h : (c == '/') = false) :
    Lsasm.strip_comments (c :: t) false =
      (c :: (Lsasm.strip_comments t false).1, (Lsasm.strip_comments t false).2) := by
  cases t with
  | nil => rfl
  | cons d ds =>
    have h' : c ≠ '/' := by simpa using h
    simp [Lsasm.strip_comments, h']

theorem strip_of_noCommentStart :
    ∀ (s : List Char), noCommentStart s = true → Lsasm.strip_comments s false = (s, false) := by
  intro s
  induction s with
  | nil => intro _; rfl
  | cons c1 cs ih =>
    intro h
    cases cs with
    | nil => rfl
    | cons c2 rest =>
      rw [noCommentStart, Bool.and_eq_true, Bool.not_eq_true'] at h
      obtain ⟨h1, h2⟩ := h
      have hA : (c1 == '/' && c2 == '*') = false := by
        rcases Bool.and_eq_false_iff.mp h1 with hx | hy
        · simp [hx]
        · rcases Bool.or_eq_false_iff.mp hy with ⟨_, hy2⟩
          simp [hy2]
      have hB : (c1 == '/' && c2 == '/') = false := by
        rcases Bool.and_eq_false_iff.mp h1 with hx | hy
        · simp [hx]
        · rcases Bool.or_eq_false_iff.mp hy with ⟨hy1, _⟩
          simp [hy1]
      unfold Lsasm.strip_comments
      simp only [hA, hB, Bool.false_eq_true, if_false, ite_false, reduceIte]
      rw [ih h2]

theorem noCommentStart_strip :
    ∀ (n : Nat) (s : List Char), s.length ≤ n → ∀ (m : Bool),
      noCommentStart (Lsasm.strip_comments s m).1 = true := by
  intro n
  induction n with
  | zero =>
    intro s h m
    cases s with
    | nil => cases m <;> rfl
    | cons c cs => simp at h
  | succ n ih =>
    intro s h m
    cases s with
    | nil => cases m <;> rfl
    | cons c1 cs =>
      cases cs with
      | nil => cases m <;> rfl
      | cons c2 rest =>
        simp only [List.length_cons] at h
        unfold Lsasm.strip_comments
        cases m with
        | true =>
          by_cases hb : (c1 == '*' && c2 == '/') = true
          · simp only [hb, if_true, ite_true, reduceIte]
            exact ih rest (by omega) false
          · simp only [Bool.not_eq_true] at hb
            simp only [hb, Bool.false_eq_true, if_false, ite_false, reduceIte]
            exact ih (c2 :: rest) (by simp; omega) true
        | false =>
          by_cases hb : (c1 == '/' && c2 == '*') = true
          · simp only [hb, if_true, ite_true, reduceIte]
            exact ih rest (by omega) true
          · simp only [Bool.not_eq_true] at hb
            simp only [hb, Bool.false_eq_true, if_false, ite_false, reduceIte]
            by_cases hc : (c1 == '/' && c2 == '/') = true
            · simp only [hc, if_true, ite_true, reduceIte]
              rfl
            · simp only [Bool.not_eq_true] at hc
              simp only [hc, Bool.false_eq_true, if_false, ite_false, reduceIte]
              have hout : noCommentStart (Lsasm.strip_comments (c2 :: rest) false).1 = true :=
                ih (c2 :: rest) (by simp; omega) false
              by_cases h1 : (c1 == '/') = true
              · have hc2slash : (c2 == '/') = false := by
                  cases hd : (c2 == '/')
                  · rfl
                  · rw [h1, hd] at hc; simp at hc
                have hc2star : (c2 == '*') = false := by
                  cases hd : (c2 == '*')
                  · rfl
                  · rw [h1, hd] at hb; simp at hb
                rw [head_strip c2 rest hc2slash] at hout ⊢
                have hfirst : (c1 == '/' && (c2 == '/' || c2 == '*')) = false := by
                  rw [hc2slash, hc2star]
                  simp
                simp only [noCommentStart, Bool.and_eq_true, Bool.not_eq_true']
                exact ⟨hfirst, hout⟩
              · simp only [Bool.not_eq_true] at h1
                exact noCommentStart_cons c1 _ h1 hout

/-- C7: comment stripping is idempotent.  For every line, stripping the
already-stripped line again (starting outside a block comment) returns
it unchanged together with the outside-comment state. -/
theorem C7_strip_comments_idempotent (s : List Char) :
    Lsasm.strip_comments (Lsasm.strip_comments s false).1 false =
      ((Lsasm.strip_comments s false).1, false) :=
  strip_of_noCommentStart _ (noCommentStart_strip s.length s (Nat.le_refl _) false)

theorem write_banks_spec (ws : List Nat) :
    ∀ (i : Nat) (al be : Nat → Nat) (j : Nat),
      ((LsasmV2.write_banks ws i al be).1 j =
        if i ≤ j ∧ j < i + ws.length then (ws.getD (j - i) 0 >>> 16) &&& 0xFFFF else al j) ∧
      ((LsasmV2.write_banks ws i al be).2 j =
        if i ≤ j ∧ j < i + ws.length then ws.getD (j - i) 0 &&& 0xFFFF else be j) := by
  induction ws with
  | nil =>
    intro i al be j
    constructor <;>
      (simp only [LsasmV2.write_banks, List.length_nil, Nat.add_zero]
       rw [if_neg (by omega)])
  | cons w ws ih =>
    intro i al be j
    unfold LsasmV2.write_banks
    obtain ⟨ih1, ih2⟩ :=
      ih (i + 1) (LsasmV2.storeAt al i ((w >>> 16) &&& 0xFFFF)) (LsasmV2.storeAt be i (w &&& 0xFFFF)) j
    constructor
    · rw [ih1]
      by_cases hj : i + 1 ≤ j ∧ j < i + 1 + ws.length
      · rw [if_pos hj, if_pos (by simp only [List.length_cons]; omega)]
        have hji : j - i = (j - (i + 1)) + 1 := by omega
        rw [hji, List.getD_cons_succ]
      · rw [if_neg hj]
        unfold LsasmV2.storeAt
        by_cases hje : j = i
        · rw [if_pos hje, if_pos (by simp only [List.length_cons]; omega)]
          rw [hje, Nat.sub_self, List.getD_cons_zero]
        · rw [if_neg hje, if_neg (by simp only [List.length_cons]; omega)]
    · rw [ih2]
      by_cases hj : i + 1 ≤ j ∧ j < i + 1 + ws.length
      · rw [if_pos hj, if_pos (by simp only [List.length_cons]; omega)]
        have hji : j - i = (j - (i + 1)) + 1 := by omega
        rw [hji, List.getD_cons_succ]
      · rw [if_neg hj]
        unfold LsasmV2.storeAt
        by_cases hje : j = i
        · rw [if_pos hje, if_pos (by simp only [List.length_cons]; omega)]
          rw [hje, Nat.sub_self, List.getD_cons_zero]
        · rw [if_neg hje, if_neg (by simp only [List.length_cons]; omega)]

/-- C8: split-bank invariant of the v2 emitter.  For every list of
encoded words and every address, the alpha bank holds bits 16-31 of the
word at that address and the beta bank holds bits 0-15, and both banks
are zero at every address past the last emitted instruction. -/
theorem C8_split_bank_invariant (ws : List Nat) (a : Nat) :
    (a < ws.length →
      (LsasmV2.split_banks ws).1 a = (ws.getD a 0 >>> 16) &&& 0xFFFF ∧
      (LsasmV2.split_banks ws).2 a = ws.getD a 0 &&& 0xFFFF) ∧
    (ws.length ≤ a →
      (LsasmV2.split_banks ws).1 a = 0 ∧ (LsasmV2.split_banks ws).2 a = 0) := by
  unfold LsasmV2.split_banks
  obtain ⟨h1, h2⟩ := write_banks_spec ws 0 (fun _ => 0) (fun _ => 0) a
  constructor
  · intro ha
    rw [h1, h2, if_pos (by omega), if_pos (by omega), Nat.sub_zero]
    exact ⟨rfl, rfl⟩
  · intro ha
    rw [h1, h2, if_neg (by omega), if_neg (by omega)]
    exact ⟨rfl, rfl⟩

/-- C8 witness: the instruction word 0xDEADBEEF at address 3 splits
into 0xDEAD in the alpha bank and 0xBEEF in the beta bank, and an
address past the program reads 0 in both banks. -/
theorem C8_split_bank_witness :
    (LsasmV2.split_banks [1, 2, 3, 0xDEADBEEF]).1 3 = 0xDEAD ∧
    (LsasmV2.split_banks [1, 2, 3, 0xDEADBEEF]).2 3 = 0xBEEF ∧
    (LsasmV2.split_banks [1, 2, 3, 0xDEADBEEF]).1 7 = 0 ∧
    (LsasmV2.split_banks [1, 2, 3, 0xDEADBEEF]).2 7 = 0 := by
  obtain ⟨ha, hb⟩ := (C8_split_bank_invariant [1, 2, 3, 0xDEADBEEF] 3).1 (by simp)
  obtain ⟨hc, hd⟩ := (C8_split_bank_invariant [1, 2, 3, 0xDEADBEEF] 7).2 (by simp)
  refine ⟨?_, ?_, hc, hd⟩
  · rw [ha]; decide
  · rw [hb]; decide

theorem lookup_append_of_absent (t u : Lsasm.SymbolTable) (name : List Char)
    (h : Lsasm.symbol_table_lookup t name = -1) :
    Lsasm.symbol_table_lookup (t ++ u) name = Lsasm.symbol_table_lookup u name := by
  induction t with
  | nil => rfl
  | cons e t ih =>
    obtain ⟨n, a⟩ := e
    unfold Lsasm.symbol_table_lookup at h
    by_cases hn : n = name
    · rw [if_pos hn] at h
      exfalso
      have ha : (0 : Int) ≤ (a : Int) := Int.ofNat_nonneg a
      omega
    · rw [if_neg hn] at h
      simp only [List.cons_append, Lsasm.symbol_table_lookup, if_neg hn]
      exact ih h

/-- C9: duplicate label definitions are not rejected.  Adding the same
name twice to a table that has room and does not yet contain it yields
two table entries, and a lookup of the name returns the address of the
first (earliest) definition. -/
theorem C9_duplicate_labels_first_match_wins (tbl : Lsasm.SymbolTable) (name : List Char)
    (a1 a2 : Nat)
    (hcap : tbl.length + 2 ≤ Lsasm.MAX_LABELS)
    (hlen : name.length ≤ 31) (ha1 : a1 < 256)
    (habsent : Lsasm.symbol_table_lookup tbl name = -1) :
    (Lsasm.symbol_table_add Lsasm.MAX_LABELS
        (Lsasm.symbol_table_add Lsasm.MAX_LABELS tbl name a1) name a2).length =
      tbl.length + 2 ∧
    Lsasm.symbol_table_lookup
        (Lsasm.symbol_table_add Lsasm.MAX_LABELS
          (Lsasm.symbol_table_add Lsasm.MAX_LABELS tbl name a1) name a2) name =
      (a1 : Int) := by
  have htake : name.take 31 = name := List.take_of_length_le hlen
  have hm1 : a1 % 256 = a1 := Nat.mod_eq_of_lt ha1
  have hML : Lsasm.MAX_LABELS = 128 := rfl
  have hadd1 : Lsasm.symbol_table_add Lsasm.MAX_LABELS tbl name a1 =
      tbl ++ [(name, a1)] := by
    unfold Lsasm.symbol_table_add
    rw [if_neg (by omega), htake, hm1]
  have hlen1 : (tbl ++ [(name, a1)]).length = tbl.length + 1 := by simp
  have hadd2 : Lsasm.symbol_table_add Lsasm.MAX_LABELS (tbl ++ [(name, a1)]) name a2 =
      tbl ++ [(name, a1)] ++ [(name, a2 % 256)] := by
    unfold Lsasm.symbol_table_add
    rw [if_neg (by rw [hlen1]; omega), htake]
  rw [hadd1, hadd2]
  constructor
  · simp
  · rw [List.append_assoc, lookup_append_of_absent tbl _ name habsent]
    simp [Lsasm.symbol_table_lookup]

/-- C9 witness: a concrete duplicate definition of the label loop at
addresses 5 and then 9 leaves two entries and resolves to 5. -/
theorem C9_duplicate_labels_witness :
    (Lsasm.symbol_table_add Lsasm.MAX_LABELS
        (Lsasm.symbol_table_add Lsasm.MAX_LABELS [(['x'], 0)] ['l', 'o', 'o', 'p'] 5)
        ['l', 'o', 'o', 'p'] 9).length = 3 ∧
    Lsasm.symbol_table_lookup
        (Lsasm.symbol_table_add Lsasm.MAX_LABELS
          (Lsasm.symbol_table_add Lsasm.MAX_LABELS [(['x'], 0)] ['l', 'o', 'o', 'p'] 5)
          ['l', 'o', 'o', 'p'] 9) ['l', 'o', 'o', 'p'] = 5 := by
  have h := C9_duplicate_labels_first_match_wins [(['x'], 0)] ['l', 'o', 'o', 'p'] 5 9
    (by decide) (by decide) (by decide) (by decide)
  exact ⟨h.1, h.2⟩

/-- C10: the label table is bounded.  Adding never grows the table past
its capacity (128 in lsasm.c, 256 in the v2 assembler, covered by the
quantified capacity); adding a label to a full table silently returns
the table unchanged; and a branch that names such a discarded label
still fails as unresolved even though its definition was presented to
the table. -/
theorem C10_label_table_capacity (tbl : Lsasm.SymbolTable) (name : List Char) (a : Nat)
    (hfull : Lsasm.MAX_LABELS ≤ tbl.length)
    (h0 : name ≠ []) (hsp : ∀ c ∈ name, isspaceC c = false)
    (hcol : (':' : Char) ∉ name) (hnd : Lsasm.headIsDigit name = false)
    (habsent : Lsasm.symbol_table_lookup tbl name = -1) :
    (∀ (maxLabels : Nat) (t : Lsasm.SymbolTable) (n : List Char) (ad : Nat),
        t.length ≤ maxLabels →
        (Lsasm.symbol_table_add maxLabels t n ad).length ≤ maxLabels) ∧
    Lsasm.symbol_table_add Lsasm.MAX_LABELS tbl name a = tbl ∧
    (Lsasm.parse_instruction (['B'] ++ ' ' :: name)
        (Lsasm.symbol_table_add Lsasm.MAX_LABELS tbl name a)).2 = true := by
  have hadd : Lsasm.symbol_table_add Lsasm.MAX_LABELS tbl name a = tbl := by
    unfold Lsasm.symbol_table_add
    rw [if_pos hfull]
  refine ⟨?_, hadd, ?_⟩
  · intro maxLabels t n ad hle
    unfold Lsasm.symbol_table_add
    by_cases h : maxLabels ≤ t.length
    · rw [if_pos h]; exact hle
    · rw [if_neg h]; simp; omega
  · rw [hadd, parse_branch_line ['B'] name tbl 0 (by simp [branchMnemonics]) rfl h0 hsp hcol]
    simp [hnd, habsent]

/-- C10 witness: with a full table of 128 entries, defining the label q
is a no-op and the branch B q still fails as unresolved. -/
theorem C10_label_table_capacity_witness :
    Lsasm.symbol_table_add Lsasm.MAX_LABELS (List.replicate 128 (['a'], 0)) ['q'] 7 =
      List.replicate 128 (['a'], 0) ∧
    (Lsasm.parse_instruction (['B'] ++ ' ' :: ['q'])
        (Lsasm.symbol_table_add Lsasm.MAX_LABELS
          (List.replicate 128 (['a'], 0)) ['q'] 7)).2 = true := by
  have h := C10_label_table_capacity (List.replicate 128 (['a'], 0)) ['q'] 7
    (by simp [Lsasm.MAX_LABELS]) (by decide) (by decide) (by decide) (by decide) (by decide)
  exact ⟨h.2.1, h.2.2⟩

/-- C6: label round trip.  For every branch mnemonic, a label bound in
the table to address k (k at most 255, the label spelled like a label:
no digits first, no spaces, no colon) and a decimal literal token whose
atoi value is k, the branch line naming the label parses to exactly the
same word-and-flag result as the branch line carrying the literal. -/
theorem C6_label_literal_round_trip (mn name s : List Char) (tbl : Lsasm.SymbolTable)
    (cond k : Nat)
    (hmn : mn ∈ branchMnemonics) (hcond : Lsasm.branch_condition_of mn = some cond)
    (hname0 : name ≠ []) (hnamesp : ∀ c ∈ name, isspaceC c = false)
    (hnamecol : (':' : Char) ∉ name) (hnamend : Lsasm.headIsDigit name = false)
    (hlook : Lsasm.symbol_table_lookup tbl name = (k : Int)) (hk : k ≤ 255)
    (hs0 : s ≠ []) (hsd : ∀ c ∈ s, isdigitC c = true) (hsv : atoi s = (k : Int)) :
    Lsasm.parse_instruction (mn ++ ' ' :: name) tbl =
      Lsasm.parse_instruction (mn ++ ' ' :: s) tbl := by
  have hssp : ∀ c ∈ s, isspaceC c = false := fun c hc => isdigit_not_space c (hsd c hc)
  have hscol : (':' : Char) ∉ s := by
    intro hmem
    exact absurd (hsd ':' hmem) (by decide)
  have hsdig : Lsasm.headIsDigit s = true := by
    cases s with
    | nil => exact absurd rfl hs0
    | cons c cs =>
      have hd := hsd c (List.mem_cons_self c cs)
      unfold isdigitC at hd
      unfold Lsasm.headIsDigit
      exact hd
  rw [parse_branch_line mn name tbl cond hmn hcond hname0 hnamesp hnamecol,
    parse_branch_line mn s tbl cond hmn hcond hs0 hssp hscol]
  simp [hnamend, hsdig, hlook, hsv]

/-- C6 witness: with the label loop bound to address 2, the line
BEQ loop parses identically to the line BEQ 2. -/
theorem C6_label_literal_witness :
    Lsasm.parse_instruction (['B', 'E', 'Q'] ++ ' ' :: ['l', 'o', 'o', 'p'])
        [(['l', 'o', 'o', 'p'], 2)] =
      Lsasm.parse_instruction (['B', 'E', 'Q'] ++ ' ' :: ['2'])
        [(['l', 'o', 'o', 'p'], 2)] :=
  C6_label_literal_round_trip ['B', 'E', 'Q'] ['l', 'o', 'o', 'p'] ['2']
    [(['l', 'o', 'o', 'p'], 2)] 1 2
    (by decide) (by decide) (by decide) (by decide) (by decide) (by decide)
    (by decide) (by decide) (by decide) (by decide) (by decide)

theorem is_label_false_of_head (c : Char) (rest : List Char)
    (h1 : isspaceC c = false) (h2 : isalphaC c = false) (h3 : (c == '_') = false) :
    Lsasm.is_label (c :: rest) = false := by
  unfold Lsasm.is_label
  rw [List.dropWhile_cons, h1]
  simp only [Bool.false_eq_true, if_false, ite_false, reduceIte]
  split_ifs <;> simp [h2, h3]

theorem pass_counts :
    ∀ (lines : List (List Char)) (m : Bool) (pc : Nat)
      (tblA tblB : Lsasm.SymbolTable) (acc : List Nat),
      acc.length = pc → Lsasm.noErrors lines m tblB = true →
      (Lsasm.pass1 lines m pc tblA).1 = (Lsasm.pass2 lines m tblB acc).length := by
  intro lines
  induction lines with
  | nil =>
    intro m pc tA tB acc hlen _
    simp [Lsasm.pass1, Lsasm.pass2, hlen]
  | cons l ls ih =>
    intro m pc tA tB acc hlen hne
    simp only [Lsasm.noErrors, Bool.and_eq_true, Bool.not_eq_true'] at hne
    obtain ⟨hne1, hne2⟩ := hne
    simp only [Lsasm.pass1, Lsasm.pass2]
    by_cases hcap : Lsasm.MAX_INSTR ≤ pc
    · have hcap2 : Lsasm.MAX_INSTR ≤ acc.length := by rw [hlen]; exact hcap
      rw [if_pos hcap, if_pos hcap2]
      exact hlen.symm
    · have hcap2 : ¬ Lsasm.MAX_INSTR ≤ acc.length := by rw [hlen]; exact hcap
      rw [if_neg hcap, if_neg hcap2, hne1]
      simp only [Bool.false_eq_true, if_false, ite_false, reduceIte]
      cases hd : (Lsasm.strip_comments l m).1.dropWhile isspaceC with
      | nil =>
        simp only [hd]
        exact ih (Lsasm.strip_comments l m).2 pc tA tB acc hlen hne2
      | cons c rest =>
        simp only [hd]
        by_cases hl : Lsasm.is_label (c :: rest) = true
        · simp only [hl, if_true, ite_true, reduceIte]
          exact ih (Lsasm.strip_comments l m).2 pc _ tB acc hlen hne2
        · simp only [Bool.not_eq_true] at hl
          simp only [hl, Bool.false_eq_true, if_false, ite_false, reduceIte]
          exact ih (Lsasm.strip_comments l m).2 (pc + 1) tA tB _ (by simp [hlen]) hne2

/-- C4 counterexample: the single line FOO is counted by the pass-1
program counter (it is non-blank and not a label) but fails to parse in
pass 2, so the emitted program is empty and the claimed equality fails
below the capacity cap. -/
theorem C4_counterexample_failed_line :
    (Lsasm.lsasm_pass1 ["FOO".toList]).1 = 1 ∧
    Lsasm.lsasm_pass2 ["FOO".toList] = [] ∧
    ¬ ((Lsasm.lsasm_pass1 ["FOO".toList]).1 =
        (Lsasm.lsasm_pass2 ["FOO".toList]).length) := by
  decide

/-- C4 amended: when additionally no line suffers a per-line parse
failure in pass 2, and the pass-1 program counter stays below the
capacity cap, the pass-1 count equals the length of the emitted
program. -/
theorem C4_pass1_count_eq_program_length (lines : List (List Char))
    (hnoerr : Lsasm.noErrors lines false (Lsasm.lsasm_pass1 lines).2 = true)
    (hcap : (Lsasm.lsasm_pass1 lines).1 < Lsasm.MAX_INSTR) :
    (Lsasm.lsasm_pass1 lines).1 = (Lsasm.lsasm_pass2 lines).length :=
  pass_counts lines false 0 [] (Lsasm.lsasm_pass1 lines).2 [] rfl hnoerr

/-- C4 witness: a three-line source with one label assembles to two
words and its pass-1 counter is two. -/
theorem C4_pass1_count_witness :
    (Lsasm.lsasm_pass1 ["MOV X0 1".toList, "loop:".toList, "B loop".toList]).1 =
      (Lsasm.lsasm_pass2 ["MOV X0 1".toList, "loop:".toList, "B loop".toList]).length :=
  C4_pass1_count_eq_program_length
    ["MOV X0 1".toList, "loop:".toList, "B loop".toList] (by decide) (by decide)

/-- C5 counterexample: the source with the line-comment-marker line
followed by EXIT.  The claim says the marker line advances the PC zero
times and contributes no word; in the code the pass-1 counter ends at 2
(not 1) and pass 2 emits the zero word 0 for the marker line. -/
theorem C5_counterexample_comment_marker :
    (Lsasm.lsasm_pass1 ["; note".toList, "EXIT".toList]).1 = 2 ∧
    Lsasm.lsasm_pass2 ["; note".toList, "EXIT".toList] = [0, 15] ∧
    ¬ ((Lsasm.lsasm_pass1 ["; note".toList, "EXIT".toList]).1 = 1) := by
  decide

/-- C5 amended: during pass 1 the program counter advances exactly once
for every line that is non-blank after comment stripping and is not a
label, including lines starting with the markers ; and #, and pass 2
appends the word 0 for such a marker line (parse_instruction returns
word 0 with no error for them). -/
theorem C5_comment_marker_lines_counted (l : List Char) (ls : List (List Char))
    (m : Bool) (pc : Nat) (tbl : Lsasm.SymbolTable) (acc : List Nat)
    (hpc : pc < Lsasm.MAX_INSTR) (hacc : acc.length < Lsasm.MAX_INSTR)
    (hhead : ((Lsasm.strip_comments l m).1.dropWhile isspaceC).head? = some ';' ∨
             ((Lsasm.strip_comments l m).1.dropWhile isspaceC).head? = some '#') :
    Lsasm.pass1 (l :: ls) m pc tbl =
      Lsasm.pass1 ls (Lsasm.strip_comments l m).2 (pc + 1) tbl ∧
    Lsasm.pass2 (l :: ls) m tbl acc =
      Lsasm.pass2 ls (Lsasm.strip_comments l m).2 tbl (acc ++ [0]) := by
  cases hd : (Lsasm.strip_comments l m).1.dropWhile isspaceC with
  | nil => rw [hd] at hhead; simp at hhead
  | cons c rest =>
    rw [hd] at hhead
    simp only [List.head?_cons, Option.some.injEq] at hhead
    have hlabel : Lsasm.is_label (c :: rest) = false := by
      rcases hhead with rfl | rfl <;>
        exact is_label_false_of_head _ rest (by decide) (by decide) (by decide)
    have hparse : Lsasm.parse_instruction (Lsasm.strip_comments l m).1 tbl = (0, false) := by
      unfold Lsasm.parse_instruction
      rw [hd]
      rcases hhead with rfl | rfl <;> simp
    constructor
    · simp only [Lsasm.pass1]
      rw [if_neg (Nat.not_le.mpr hpc)]
      simp only [hd, hlabel, Bool.false_eq_true, if_false, ite_false, reduceIte]
    · simp only [Lsasm.pass2]
      rw [if_neg (Nat.not_le.mpr hacc), hparse]
      simp only [hd, hlabel, Bool.false_eq_true, if_false, ite_false, reduceIte]

/-- C5 witness: for the concrete marker line the amended statement
instantiates to a pass-1 step that advances the counter to 1 and a
pass-2 step that appends the word 0. -/
theorem C5_comment_marker_witness :
    Lsasm.pass1 ["; note".toList, "EXIT".toList] false 0 [] =
      Lsasm.pass1 ["EXIT".toList] (Lsasm.strip_comments ("; note".toList) false).2 1 [] ∧
    Lsasm.pass2 ["; note".toList, "EXIT".toList] false [] [] =
      Lsasm.pass2 ["EXIT".toList] (Lsasm.strip_comments ("; note".toList) false).2 [] [0] := by
  have h := C5_comment_marker_lines_counted ("; note".toList) ["EXIT".toList] false 0 [] []
    (by decide) (by decide) (by decide)
  exact ⟨h.1, h.2⟩
